import Mathlib

/-!
Shallow embedding of the Redis client in `src/main.rs`: the command
encoder (`RedisClient::get_command` with `RedisClient::escape`) and the
reply decoder (`RedisClient::parse_response` with the helpers
`filter_eol`, `get_result`, `get_length`).

The inbound stream is modelled as a `List Char`; `read_line` models
`BufRead::read_line`, which consumes up to and including the first
line-feed (returning everything that remains when the stream holds no
line-feed, and the empty string at end of stream).  A process abort
(a Rust panic, raised by `.expect(..)` on an integer-parse failure
and by `Vec::with_capacity` on capacity overflow) is modelled as the
decoder returning `none`.
-/

namespace RedisClient

/-- The `Request` enum of the source: the six command variants.
Keys and values are modelled as `List Char`, `start`/`end` (`i64`) as `Int`. -/
inductive Request where
  | Ping : Request
  | Get (key : List Char) : Request
  | Set (key : List Char) (value : List Char) : Request
  | Incr (key : List Char) : Request
  | Lpush (key : List Char) (value : List Char) : Request
  | Lrange (key : List Char) (start : Int) (end_ : Int) : Request

/-- The `Response` enum of the source.  `i64` fields are modelled as `Int`,
`String` fields as `List Char`, `Vec<Box<Response>>` as `List Response`. -/
inductive Response where
  | SimpleString (value : List Char) : Response
  | Error (value : List Char) : Response
  | Integer (value : Int) : Response
  | BulkString (length : Int) (value : List Char) : Response
  | Array (length : Int) (value : List Response) : Response
  | Unknown (resp_type : Option Char) (value : Option (List Char)) : Response

/-- `RedisClient::filter_eol`: keep a character iff it is neither `'\r'` nor `'\n'`. -/
def filter_eol (x : Char) : Bool :=
  !(x = '\r' || x = '\n')

/-- `RedisClient::get_result`: drop every `'\r'` and `'\n'` character
(interior ones included) from the character iterator. -/
def get_result (l : List Char) : List Char :=
  l.filter filter_eol

/-- A run of ASCII decimal digits read as a natural number; `none` when the
run is empty or contains a non-digit.  Helper for the model of
`str::parse::<i64>`. -/
def parse_digits (l : List Char) : Option Nat :=
  if l = [] then none
  else if l.all (fun c => c.isDigit) then
    some (l.foldl (fun a c => a * 10 + (c.toNat - '0'.toNat)) 0)
  else none

/-- Model of Rust `str::parse::<i64>`: an optional ASCII sign `'+'`/`'-'`
followed by at least one decimal digit, with the value required to fit in
the signed 64-bit range; anything else (including overflow) fails. -/
def parse_i64 (l : List Char) : Option Int :=
  match l with
  | '+' :: rest =>
    match parse_digits rest with
    | some n => if n ≤ 2 ^ 63 - 1 then some (n : Int) else none
    | none => none
  | '-' :: rest =>
    match parse_digits rest with
    | some n => if n ≤ 2 ^ 63 then some (-(n : Int)) else none
    | none => none
  | _ =>
    match parse_digits l with
    | some n => if n ≤ 2 ^ 63 - 1 then some (n : Int) else none
    | none => none

/-- `RedisClient::get_length`: strip `'\r'`/`'\n'` and parse the rest as an
`i64`; `none` models the `.expect("Should be a number")` panic. -/
def get_length (l : List Char) : Option Int :=
  parse_i64 (l.filter filter_eol)

/-- `RedisClient::escape`: `input.replace` of each double quote by a
backslash followed by a double quote. -/
def escape : List Char → List Char
  | [] => []
  | c :: cs => if c = '"' then '\\' :: '"' :: escape cs else c :: escape cs

/-- `RedisClient::get_command`: the exact `format!` expansions of the source,
one command line per request (no trailing terminator). -/
def get_command : Request → List Char
  | .Ping => "PING".toList
  | .Get key => "GET \"".toList ++ escape key ++ "\"".toList
  | .Set key value =>
      "SET \"".toList ++ escape key ++ "\" \"".toList ++ escape value ++ "\"".toList
  | .Incr key => "INCR \"".toList ++ escape key ++ "\"".toList
  | .Lpush key value =>
      "LPUSH \"".toList ++ escape key ++ "\" \"".toList ++ escape value ++ "\"".toList
  | .Lrange key start end_ =>
      "LRANGE \"".toList ++ key ++ "\" \"".toList ++ (toString start).toList
        ++ "\" \"".toList ++ (toString end_).toList ++ "\"".toList

/-- Model of `BufRead::read_line` on a character stream: return the first
line (up to and including the first `'\n'`, or everything when no `'\n'`
remains) together with the unread rest of the stream. -/
def read_line : List Char → List Char × List Char
  | [] => ([], [])
  | c :: cs =>
    if c = '\n' then ([c], cs)
    else
      let p := read_line cs
      (c :: p.1, p.2)

theorem read_line_length (s : List Char) :
    (read_line s).1.length + (read_line s).2.length = s.length := by
  induction s with
  | nil => simp [read_line]
  | cons c cs ih =>
    by_cases h : c = '\n' <;> simp [read_line, h] <;> omega

theorem read_line_rest_le (s : List Char) :
    (read_line s).2.length ≤ s.length := by
  have := read_line_length s
  omega

theorem read_line_rest_lt {s line rest : List Char} {c : Char}
    (h : read_line s = (c :: line, rest)) : rest.length < s.length := by
  have hl := read_line_length s
  rw [h] at hl
  simp at hl
  omega

/-- The `length as usize` cast of the source: two's-complement conversion
of an `i64` to a 64-bit unsigned value. -/
def usize_cast (n : Int) : Nat :=
  (n % (2 : Int) ^ 64).toNat

/-- `Vec::<Box<Response>>::with_capacity(c)` panics with a capacity
overflow exactly when `c` elements of 8 bytes exceed `isize::MAX` bytes
(64-bit target, `Box` is pointer-sized). -/
def with_capacity_panics (c : Nat) : Bool :=
  decide (c * 8 > 2 ^ 63 - 1)

mutual

/-- Worker for `RedisClient::parse_response`; the unread remainder is
bundled with the proof that reading consumes monotonically, which also
drives the termination argument. -/
def parse_response_aux (s : List Char) :
    Option Response × { r : List Char // r.length ≤ s.length } :=
  match h : read_line s with
  | ([], rest) =>
    (some (.Unknown none none),
      ⟨rest, by have := read_line_rest_le s; rw [h] at this; simpa using this⟩)
  | (c :: payload, rest) =>
    have hrest : rest.length ≤ s.length := le_of_lt (read_line_rest_lt h)
    match c with
    | '+' => (some (.SimpleString (get_result payload)), ⟨rest, hrest⟩)
    | '-' => (some (.Error (get_result payload)), ⟨rest, hrest⟩)
    | ':' =>
      match get_length payload with
      | none => (none, ⟨rest, hrest⟩)
      | some v => (some (.Integer v), ⟨rest, hrest⟩)
    | '$' =>
      match get_length payload with
      | none => (none, ⟨rest, hrest⟩)
      | some len =>
        (some (.BulkString len (get_result (read_line rest).1)),
          ⟨(read_line rest).2, le_trans (read_line_rest_le rest) hrest⟩)
    | '*' =>
      match get_length payload with
      | none => (none, ⟨rest, hrest⟩)
      | some len =>
        if with_capacity_panics (usize_cast len) then (none, ⟨rest, hrest⟩)
        else
          match parse_many_aux len.toNat rest with
          | (none, ⟨rest2, h2⟩) => (none, ⟨rest2, le_trans h2 hrest⟩)
          | (some vs, ⟨rest2, h2⟩) =>
            (some (.Array len vs), ⟨rest2, le_trans h2 hrest⟩)
    | u => (some (.Unknown (some u) (some payload)), ⟨rest, hrest⟩)
termination_by (s.length, 0)
decreasing_by
  exact Prod.Lex.left _ _ (read_line_rest_lt h)

/-- Worker for the `for _ in 0..length` loop of the `'*'` branch: decode
`n` replies in sequence, threading the stream and propagating a panic. -/
def parse_many_aux (n : Nat) (s : List Char) :
    Option (List Response) × { r : List Char // r.length ≤ s.length } :=
  match n with
  | 0 => (some [], ⟨s, le_refl _⟩)
  | m + 1 =>
    match parse_response_aux s with
    | (none, ⟨rest, hrest⟩) => (none, ⟨rest, hrest⟩)
    | (some r, ⟨rest, hrest⟩) =>
      match parse_many_aux m rest with
      | (none, ⟨rest2, h2⟩) => (none, ⟨rest2, le_trans h2 hrest⟩)
      | (some rs, ⟨rest2, h2⟩) => (some (r :: rs), ⟨rest2, le_trans h2 hrest⟩)
termination_by (s.length, n)
decreasing_by
  · exact Prod.Lex.right _ (Nat.succ_pos m)
  · rcases lt_or_eq_of_le hrest with h | h
    · exact Prod.Lex.left _ _ h
    · rw [h]
      exact Prod.Lex.right _ (Nat.lt_succ_self m)

end

/-- `RedisClient::parse_response`: read one line, dispatch on its first
character, recursing for arrays.  Returns the decoded reply (`none` models
a panic aborting the process) with the unread rest of the stream. -/
def parse_response (s : List Char) : Option Response × List Char :=
  ((parse_response_aux s).1, (parse_response_aux s).2.val)

/-- The array-element loop, at the level of plain streams. -/
def parse_many (n : Nat) (s : List Char) : Option (List Response) × List Char :=
  ((parse_many_aux n s).1, (parse_many_aux n s).2.val)

/-! Unfolding equations of the decoder, one per branch of the source's
`match chars.next()`. -/

theorem read_line_eq_nil {s rest : List Char} (h : read_line s = ([], rest)) :
    s = [] ∧ rest = [] := by
  cases s with
  | nil =>
    simp [read_line] at h
    exact ⟨rfl, h⟩
  | cons c cs =>
    by_cases hc : c = '\n' <;> simp [read_line, hc] at h

theorem parse_response_nil : parse_response [] = (some (.Unknown none none), []) := by
  unfold parse_response
  rw [parse_response_aux]
  rfl

theorem parse_response_plus {s payload rest : List Char}
    (h : read_line s = ('+' :: payload, rest)) :
    parse_response s = (some (.SimpleString (get_result payload)), rest) := by
  unfold parse_response
  rw [parse_response_aux]
  split
  · rename_i rest2 heq
    rw [h] at heq
    simp at heq
  · rename_i c payload2 rest2 heq
    rw [h] at heq
    obtain ⟨⟨rfl, rfl⟩, rfl⟩ : ('+' = c ∧ payload = payload2) ∧ rest = rest2 := by
      simpa using heq
    rfl

theorem parse_response_minus {s payload rest : List Char}
    (h : read_line s = ('-' :: payload, rest)) :
    parse_response s = (some (.Error (get_result payload)), rest) := by
  unfold parse_response
  rw [parse_response_aux]
  split
  · rename_i rest2 heq
    rw [h] at heq
    simp at heq
  · rename_i c payload2 rest2 heq
    rw [h] at heq
    obtain ⟨⟨rfl, rfl⟩, rfl⟩ : ('-' = c ∧ payload = payload2) ∧ rest = rest2 := by
      simpa using heq
    rfl

theorem parse_response_colon {s payload rest : List Char}
    (h : read_line s = (':' :: payload, rest)) :
    parse_response s =
      (match get_length payload with
       | none => (none, rest)
       | some v => (some (.Integer v), rest)) := by
  unfold parse_response
  rw [parse_response_aux]
  split
  · rename_i rest2 heq
    rw [h] at heq
    simp at heq
  · rename_i c payload2 rest2 heq
    rw [h] at heq
    obtain ⟨⟨rfl, rfl⟩, rfl⟩ : (':' = c ∧ payload = payload2) ∧ rest = rest2 := by
      simpa using heq
    cases hlen : get_length payload <;> simp [hlen]

theorem parse_response_dollar {s payload rest : List Char}
    (h : read_line s = ('$' :: payload, rest)) :
    parse_response s =
      (match get_length payload with
       | none => (none, rest)
       | some len =>
         (some (.BulkString len (get_result (read_line rest).1)), (read_line rest).2)) := by
  unfold parse_response
  rw [parse_response_aux]
  split
  · rename_i rest2 heq
    rw [h] at heq
    simp at heq
  · rename_i c payload2 rest2 heq
    rw [h] at heq
    obtain ⟨⟨rfl, rfl⟩, rfl⟩ : ('$' = c ∧ payload = payload2) ∧ rest = rest2 := by
      simpa using heq
    cases hlen : get_length payload <;> simp [hlen]

theorem parse_response_star {s payload rest : List Char}
    (h : read_line s = ('*' :: payload, rest)) :
    parse_response s =
      (match get_length payload with
       | none => (none, rest)
       | some len =>
         if with_capacity_panics (usize_cast len) then (none, rest)
         else
           (((parse_many len.toNat rest).1).map (.Array len ·),
             (parse_many len.toNat rest).2)) := by
  unfold parse_response
  rw [parse_response_aux]
  split
  · rename_i rest2 heq
    rw [h] at heq
    simp at heq
  · rename_i c payload2 rest2 heq
    rw [h] at heq
    obtain ⟨⟨rfl, rfl⟩, rfl⟩ : ('*' = c ∧ payload = payload2) ∧ rest = rest2 := by
      simpa using heq
    cases hlen : get_length payload with
    | none => simp [hlen]
    | some len =>
      simp only [hlen]
      by_cases hcap : with_capacity_panics (usize_cast len) <;> simp only [hcap]
      · simp
      · rcases hmany : parse_many_aux len.toNat rest with ⟨o, ⟨rest2, h2⟩⟩
        cases o <;> simp [parse_many, hmany]

theorem parse_response_unknown {s payload rest : List Char} {c : Char}
    (h : read_line s = (c :: payload, rest))
    (hc : c ≠ '+' ∧ c ≠ '-' ∧ c ≠ ':' ∧ c ≠ '$' ∧ c ≠ '*') :
    parse_response s = (some (.Unknown (some c) (some payload)), rest) := by
  unfold parse_response
  rw [parse_response_aux]
  split
  · rename_i rest2 heq
    rw [h] at heq
    simp at heq
  · rename_i c2 payload2 rest2 heq
    rw [h] at heq
    obtain ⟨⟨rfl, rfl⟩, rfl⟩ : (c = c2 ∧ payload = payload2) ∧ rest = rest2 := by
      simpa using heq
    obtain ⟨h1, h2, h3, h4, h5⟩ := hc
    split
    · simp at h1
    · simp at h2
    · simp at h3
    · simp at h4
    · simp at h5
    · rfl

theorem parse_many_zero (s : List Char) : parse_many 0 s = (some [], s) := by
  unfold parse_many
  rw [parse_many_aux]

theorem parse_many_succ (m : Nat) (s : List Char) :
    parse_many (m + 1) s =
      (match parse_response s with
       | (none, rest) => (none, rest)
       | (some r, rest) =>
         (((parse_many m rest).1).map (r :: ·), (parse_many m rest).2)) := by
  unfold parse_many
  rw [parse_many_aux]
  rcases hresp : parse_response_aux s with ⟨o, ⟨rest, hrest⟩⟩
  have hr : parse_response s = (o, rest) := by
    unfold parse_response
    rw [hresp]
  rw [hr]
  cases o with
  | none => simp
  | some r =>
    rcases hmany : parse_many_aux m rest with ⟨o2, ⟨rest2, h2⟩⟩
    cases o2 <;> simp [parse_many, hmany]

/-! Derived facts about the decoder. -/

theorem parse_many_succ_ok {s rest : List Char} {r : Response} (m : Nat)
    (h : parse_response s = (some r, rest)) :
    parse_many (m + 1) s =
      (((parse_many m rest).1).map (r :: ·), (parse_many m rest).2) := by
  rw [parse_many_succ, h]

theorem parse_many_succ_panic {s rest : List Char} (m : Nat)
    (h : parse_response s = (none, rest)) :
    parse_many (m + 1) s = (none, rest) := by
  rw [parse_many_succ, h]

theorem parse_response_rest_le (s : List Char) :
    (parse_response s).2.length ≤ s.length :=
  (parse_response_aux s).2.prop

theorem parse_many_rest_le (n : Nat) (s : List Char) :
    (parse_many n s).2.length ≤ s.length :=
  (parse_many_aux n s).2.prop

/-- A successful run of the array-element loop returns exactly as many
elements as it was asked for. -/
theorem parse_many_length {n : Nat} {s s2 : List Char} {vs : List Response}
    (h : parse_many n s = (some vs, s2)) : vs.length = n := by
  induction n generalizing s s2 vs with
  | zero =>
    rw [parse_many_zero] at h
    cases h
    rfl
  | succ m ih =>
    rw [parse_many_succ] at h
    rcases hresp : parse_response s with ⟨o, rest⟩
    rw [hresp] at h
    cases o with
    | none => simp at h
    | some r =>
      have h2 : (((parse_many m rest).1).map (r :: ·), (parse_many m rest).2)
          = (some vs, s2) := h
      rcases hmany : parse_many m rest with ⟨o2, rest2⟩
      rw [hmany] at h2
      cases o2 with
      | none => simp at h2
      | some rs =>
        simp at h2
        obtain ⟨⟨rfl, rfl⟩, rfl⟩ := h2
        have := ih hmany
        simp [this]

/-- On a non-empty stream every invocation of the decoder consumes at
least one character (the line it reads) before returning. -/
theorem parse_response_rest_lt {s : List Char} (hs : s ≠ []) :
    (parse_response s).2.length < s.length := by
  rcases hrl : read_line s with ⟨line, rest⟩
  cases line with
  | nil =>
    obtain ⟨rfl, -⟩ := read_line_eq_nil hrl
    exact absurd rfl hs
  | cons c payload =>
    have hlt : rest.length < s.length := read_line_rest_lt hrl
    by_cases h1 : c = '+'
    · subst h1; rw [parse_response_plus hrl]; exact hlt
    · by_cases h2 : c = '-'
      · subst h2; rw [parse_response_minus hrl]; exact hlt
      · by_cases h3 : c = ':'
        · subst h3
          rw [parse_response_colon hrl]
          cases get_length payload <;> simpa
        · by_cases h4 : c = '$'
          · subst h4
            rw [parse_response_dollar hrl]
            cases get_length payload with
            | none => simpa
            | some len =>
              simp only
              exact lt_of_le_of_lt (read_line_rest_le rest) hlt
          · by_cases h5 : c = '*'
            · subst h5
              rw [parse_response_star hrl]
              cases get_length payload with
              | none => simpa
              | some len =>
                simp only
                by_cases hcap : with_capacity_panics (usize_cast len) <;>
                  simp only [hcap, if_true, if_false]
                · exact hlt
                · exact lt_of_le_of_lt (parse_many_rest_le len.toNat rest) hlt
            · rw [parse_response_unknown hrl ⟨h1, h2, h3, h4, h5⟩]
              exact hlt

/-! Facts about the encoder. -/

/-- Every adjacent pair whose second character is a double quote has a
backslash as its first character. -/
def quote_pairs_ok : List Char → Bool
  | [] => true
  | [_] => true
  | a :: b :: rest => (b ≠ '"' || a = '\\') && quote_pairs_ok (b :: rest)

/-- Every double quote of `l` is immediately preceded by a backslash
(so in particular `l` does not start with a quote). -/
def quote_escaped (l : List Char) : Bool :=
  (l.head? ≠ some '"') && quote_pairs_ok l

theorem escape_head {l r : List Char} (h : escape l = '"' :: r) : False := by
  cases l with
  | nil => simp [escape] at h
  | cons c cs =>
    by_cases hc : c = '"' <;> simp [escape, hc] at h

theorem quote_pairs_ok_escape (l : List Char) : quote_pairs_ok (escape l) = true := by
  induction l with
  | nil => rfl
  | cons c cs ih =>
    by_cases hc : c = '"'
    · subst hc
      rw [show escape ('"' :: cs) = '\\' :: '"' :: escape cs by simp [escape]]
      cases hcs : escape cs with
      | nil => rfl
      | cons e0 es =>
        have he0 : e0 ≠ '"' := fun h => escape_head (h ▸ hcs)
        rw [hcs] at ih
        simp [quote_pairs_ok, he0, ih]
    · rw [show escape (c :: cs) = c :: escape cs by simp [escape, hc]]
      cases hcs : escape cs with
      | nil => rfl
      | cons e0 es =>
        have he0 : e0 ≠ '"' := fun h => escape_head (h ▸ hcs)
        rw [hcs] at ih
        simp [quote_pairs_ok, he0, ih]

theorem quote_escaped_escape (l : List Char) : quote_escaped (escape l) = true := by
  rw [quote_escaped]
  have hp := quote_pairs_ok_escape l
  rw [hp]
  cases hl : escape l with
  | nil => rfl
  | cons e0 es =>
    have he0 : e0 ≠ '"' := fun h => escape_head (h ▸ hl)
    simp [he0]

theorem digitChar_isDigit {n : Nat} (h : n < 10) : (Nat.digitChar n).isDigit = true := by
  interval_cases n <;> decide

theorem toDigitsCore_digits (f : Nat) :
    ∀ (n : Nat) (l : List Char), (∀ c ∈ l, c.isDigit = true) →
      ∀ c ∈ Nat.toDigitsCore 10 f n l, c.isDigit = true := by
  induction f with
  | zero =>
    intro n l hl c hc
    simp only [Nat.toDigitsCore] at hc
    exact hl c hc
  | succ f ih =>
    intro n l hl c hc
    simp only [Nat.toDigitsCore] at hc
    have hcons : ∀ c2 ∈ Nat.digitChar (n % 10) :: l, c2.isDigit = true := by
      intro c2 hc2
      rcases List.mem_cons.mp hc2 with h | h
      · subst h
        exact digitChar_isDigit (Nat.mod_lt _ (by decide))
      · exact hl c2 h
    by_cases h0 : n / 10 = 0
    · rw [if_pos h0] at hc
      exact hcons c hc
    · rw [if_neg h0] at hc
      exact ih (n / 10) (Nat.digitChar (n % 10) :: l) hcons c hc

theorem nat_repr_digits (n : Nat) : ∀ c ∈ (Nat.repr n).toList, c.isDigit = true := by
  intro c hc
  have he : (Nat.repr n).toList = Nat.toDigitsCore 10 (n + 1) n [] := rfl
  rw [he] at hc
  exact toDigitsCore_digits (n + 1) n [] (by simp) c hc

/-- Every character of an `i64` formatted with `{}` is a decimal digit or
the leading minus sign. -/
theorem int_toString_chars (i : Int) :
    ∀ c ∈ (toString i).toList, c.isDigit = true ∨ c = '-' := by
  cases i with
  | ofNat m =>
    intro c hc
    exact Or.inl (nat_repr_digits m c hc)
  | negSucc m =>
    intro c hc
    have he : (toString (Int.negSucc m)).toList = '-' :: (Nat.repr (m + 1)).toList := rfl
    rw [he] at hc
    rcases List.mem_cons.mp hc with h | h
    · exact Or.inr h
    · exact Or.inl (nat_repr_digits (m + 1) c h)

/-! The claims. -/

/-- C1: when a reply whose first line is an `'*'` tag with a payload
parsing to a non-negative integer `N` is decoded successfully, the result
is an `Array` whose declared `length` is `N` and whose `value` holds
exactly `N` elements, namely the results of the `N` sequential
sub-decodes of the remaining stream performed in order by the
element loop `parse_many` (which invokes the decoder once per element,
threading the stream left to right); in particular
`value.len() == length` for every successfully parsed array with
non-negative length. -/
theorem c1_array_length_invariant (s payload rest s2 : List Char)
    (r : Response) (N : Int)
    (hline : read_line s = ('*' :: payload, rest))
    (hlen : get_length payload = some N) (hN : 0 ≤ N)
    (hres : parse_response s = (some r, s2)) :
    ∃ vs : List Response, r = .Array N vs ∧ (vs.length : Int) = N ∧
      parse_many N.toNat rest = (some vs, s2) := by
  rw [parse_response_star hline, hlen] at hres
  have hres2 : (if with_capacity_panics (usize_cast N) = true
      then ((none : Option Response), rest)
      else (((parse_many N.toNat rest).1).map (.Array N ·),
        (parse_many N.toNat rest).2)) = (some r, s2) := hres
  by_cases hcap : with_capacity_panics (usize_cast N) = true
  · rw [if_pos hcap] at hres2
    simp at hres2
  · rw [if_neg hcap] at hres2
    rcases hm : parse_many N.toNat rest with ⟨o, rest2⟩
    rw [hm] at hres2
    cases o with
    | none => simp at hres2
    | some vs =>
      simp at hres2
      obtain ⟨⟨rfl, rfl⟩, rfl⟩ := hres2
      refine ⟨vs, rfl, ?_, rfl⟩
      rw [parse_many_length hm]
      exact Int.toNat_of_nonneg hN

/-- Witness for C1 at the stream `"*2\r\n:1\r\n:2\r\n"`. -/
theorem c1_array_length_invariant_witness :
    ∃ vs : List Response,
      Response.Array 2 [.Integer 1, .Integer 2] = .Array 2 vs ∧
      ((vs.length : Int) = 2) ∧
      parse_many (2 : Int).toNat (":1\r\n:2\r\n".toList) = (some vs, []) := by
  have e1 : parse_response (":1\r\n:2\r\n".toList) = (some (.Integer 1), ":2\r\n".toList) := by
    rw [parse_response_colon (show read_line (":1\r\n:2\r\n".toList)
      = (':' :: "1\r\n".toList, ":2\r\n".toList) by decide)]
    rfl
  have e2 : parse_response (":2\r\n".toList) = (some (.Integer 2), []) := by
    rw [parse_response_colon (show read_line (":2\r\n".toList)
      = (':' :: "2\r\n".toList, []) by decide)]
    rfl
  have em : parse_many 2 (":1\r\n:2\r\n".toList) = (some [.Integer 1, .Integer 2], []) := by
    rw [show (2 : Nat) = 1 + 1 from rfl, parse_many_succ_ok 1 e1,
      parse_many_succ_ok 0 e2, parse_many_zero]
    rfl
  have hmap : parse_response ("*2\r\n:1\r\n:2\r\n".toList)
      = (((parse_many 2 (":1\r\n:2\r\n".toList)).1).map (.Array 2 ·),
        (parse_many 2 (":1\r\n:2\r\n".toList)).2) := by
    rw [parse_response_star (show read_line ("*2\r\n:1\r\n:2\r\n".toList)
      = ('*' :: "2\r\n".toList, ":1\r\n:2\r\n".toList) by decide)]
    rfl
  have hres : parse_response ("*2\r\n:1\r\n:2\r\n".toList)
      = (some (.Array 2 [.Integer 1, .Integer 2]), []) := by
    rw [hmap, em]
    rfl
  exact c1_array_length_invariant ("*2\r\n:1\r\n:2\r\n".toList) ("2\r\n".toList)
    (":1\r\n:2\r\n".toList) [] (.Array 2 [.Integer 1, .Integer 2]) 2
    (by decide) (by decide) (by decide) hres

/-- C4 (amended): a non-empty first line whose tag is none of
`'+' '-' ':' '$' '*'` decodes to `Unknown` with the tag character and the
rest of the line taken verbatim — including its trailing
carriage-return/line-feed, which the source's `chars.collect()` does not
strip. -/
theorem c4_unknown_tag (s payload rest : List Char) (c : Char)
    (h : read_line s = (c :: payload, rest))
    (hc : c ≠ '+' ∧ c ≠ '-' ∧ c ≠ ':' ∧ c ≠ '$' ∧ c ≠ '*') :
    parse_response s = (some (.Unknown (some c) (some payload)), rest) :=
  parse_response_unknown h hc

/-- Witness for C4 (amended) at the line `"!weird\r\n"`. -/
theorem c4_unknown_tag_witness :
    parse_response ("!weird\r\n".toList)
      = (some (.Unknown (some '!') (some ("weird\r\n".toList))), []) :=
  c4_unknown_tag ("!weird\r\n".toList) ("weird\r\n".toList) [] '!'
    (by decide) (by decide)

/-- C4 (counterexample to the claim as stated): decoding `"!weird\r\n"`
yields `Unknown{Some('!'), Some("weird\r\n")}`, not
`Unknown{Some('!'), Some("weird")}` — the trailing terminator is kept. -/
theorem c4_unknown_tag_counterexample :
    parse_response ("!weird\r\n".toList)
      = (some (.Unknown (some '!') (some ("weird\r\n".toList))), []) ∧
    parse_response ("!weird\r\n".toList)
      ≠ (some (.Unknown (some '!') (some ("weird".toList))), []) := by
  have h := parse_response_unknown (show read_line ("!weird\r\n".toList)
    = ('!' :: "weird\r\n".toList, []) by decide) (by decide)
  constructor
  · exact h
  · rw [h]
    intro hcontra
    simp at hcontra

/-- C5: a `'$'` line whose payload parses to `L` makes the decoder read
exactly one more line and return `BulkString{L, second line with its
carriage-return/line-feed characters removed}`; `L` is taken verbatim,
with no byte counting and no check of `L` against the content size. -/
theorem c5_bulkstring (s payload rest : List Char) (L : Int)
    (h : read_line s = ('$' :: payload, rest))
    (hlen : get_length payload = some L) :
    parse_response s
      = (some (.BulkString L (get_result (read_line rest).1)), (read_line rest).2) := by
  rw [parse_response_dollar h, hlen]

/-- Witness for C5: `"$5\r\nhello\r\n"` yields `BulkString{5,"hello"}`,
and the undeclared-size mismatch `"$99\r\nxy\r\n"` still yields
`BulkString{99,"xy"}` (no validation). -/
theorem c5_bulkstring_witness :
    parse_response ("$5\r\nhello\r\n".toList)
      = (some (.BulkString 5 ("hello".toList)), []) ∧
    parse_response ("$99\r\nxy\r\n".toList)
      = (some (.BulkString 99 ("xy".toList)), []) := by
  constructor
  · rw [c5_bulkstring ("$5\r\nhello\r\n".toList) ("5\r\n".toList)
      ("hello\r\n".toList) 5 (by decide) (by decide)]
    rfl
  · rw [c5_bulkstring ("$99\r\nxy\r\n".toList) ("99\r\n".toList)
      ("xy\r\n".toList) 99 (by decide) (by decide)]
    rfl

/-- C6: on a `':'`, `'$'` or `'*'` line whose payload, after removing
carriage-return/line-feed characters, does not parse as a signed 64-bit
integer, the decoder aborts (the `.expect("Should be a number")` panic,
modelled as `none`) instead of returning any reply value — in particular
no recoverable `Error` or `Unknown` reply. -/
theorem c6_malformed_length_fatal (s payload rest : List Char) (c : Char)
    (h : read_line s = (c :: payload, rest))
    (hc : c = ':' ∨ c = '$' ∨ c = '*')
    (hbad : parse_i64 (payload.filter filter_eol) = none) :
    (parse_response s).1 = none := by
  have hlen : get_length payload = none := hbad
  rcases hc with rfl | rfl | rfl
  · rw [parse_response_colon h, hlen]
  · rw [parse_response_dollar h, hlen]
  · rw [parse_response_star h, hlen]

/-- Witness for C6: a non-numeric `Integer` payload, an empty `BulkString`
length, a junk `Array` length, and an `Integer` payload one past
`i64::MAX` all abort the decode. -/
theorem c6_malformed_length_fatal_witness :
    (parse_response (":4a\r\n".toList)).1 = none ∧
    (parse_response ("$\r\n".toList)).1 = none ∧
    (parse_response ("*12x\r\n".toList)).1 = none ∧
    (parse_response (":9223372036854775808\r\n".toList)).1 = none := by
  refine ⟨?_, ?_, ?_, ?_⟩
  · exact c6_malformed_length_fatal (":4a\r\n".toList) ("4a\r\n".toList) [] ':'
      (by decide) (Or.inl rfl) (by decide)
  · exact c6_malformed_length_fatal ("$\r\n".toList) ("\r\n".toList) [] '$'
      (by decide) (Or.inr (Or.inl rfl)) (by decide)
  · exact c6_malformed_length_fatal ("*12x\r\n".toList) ("12x\r\n".toList) [] '*'
      (by decide) (Or.inr (Or.inr rfl)) (by decide)
  · exact c6_malformed_length_fatal (":9223372036854775808\r\n".toList)
      ("9223372036854775808\r\n".toList) [] ':'
      (by decide) (Or.inl rfl) (by decide)

/-- C7: when the stream yields no data, the decoder returns the sentinel
`Unknown{None, None}` as an ordinary value (a `some`, not the `none` that
models an abort). -/
theorem c7_end_of_stream :
    parse_response [] = (some (.Unknown none none), []) :=
  parse_response_nil

/-- C2 (amended): for the variants `Ping`, `Get`, `Set`, `Incr` and
`Lpush` every string argument is interpolated through `escape`, whose
output has every double quote immediately preceded by a backslash; the
`Lrange` variant however interpolates its key verbatim, without escaping,
so a double quote inside an `Lrange` key reaches the command line
unescaped. -/
theorem c2_escaping (key value : List Char) (start end_ : Int) :
    quote_escaped (escape key) = true ∧
    quote_escaped (escape value) = true ∧
    get_command .Ping = "PING".toList ∧
    get_command (.Get key) = "GET \"".toList ++ escape key ++ "\"".toList ∧
    get_command (.Set key value)
      = "SET \"".toList ++ escape key ++ "\" \"".toList ++ escape value ++ "\"".toList ∧
    get_command (.Incr key) = "INCR \"".toList ++ escape key ++ "\"".toList ∧
    get_command (.Lpush key value)
      = "LPUSH \"".toList ++ escape key ++ "\" \"".toList ++ escape value ++ "\"".toList ∧
    get_command (.Lrange key start end_)
      = "LRANGE \"".toList ++ key ++ "\" \"".toList ++ (toString start).toList
        ++ "\" \"".toList ++ (toString end_).toList ++ "\"".toList :=
  ⟨quote_escaped_escape key, quote_escaped_escape value,
    rfl, rfl, rfl, rfl, rfl, rfl⟩

/-- C2 (counterexample to the claim as stated): for
`Lrange{key:"x\"y", 0, 0}` the encoded line carries the key's double
quote (position 9) preceded by `'x'` (position 8), not by a backslash —
the quote coming from the argument is unescaped. -/
theorem c2_escaping_counterexample :
    get_command (.Lrange ("x\"y".toList) 0 0)
      = "LRANGE \"".toList ++ "x\"y".toList ++ "\" \"0\" \"0\"".toList ∧
    get_command (.Lrange ("x\"y".toList) 0 0)
      = "LRANGE \"x\"y\" \"0\" \"0\"".toList ∧
    ("LRANGE \"x\"y\" \"0\" \"0\"".toList).getD 9 ' ' = '"' ∧
    ("LRANGE \"x\"y\" \"0\" \"0\"".toList).getD 8 ' ' = 'x' ∧
    ('x' : Char) ≠ '\\' := by
  refine ⟨?_, ?_, by decide, by decide, by decide⟩ <;> decide

/-- C3 (amended): `Lrange`'s `start` and `end` are interpolated as their
decimal text (digits with an optional leading minus sign), but each is
wrapped in a pair of double quotes, exactly like the string arguments. -/
theorem c3_lrange_integers (key : List Char) (start end_ : Int) :
    get_command (.Lrange key start end_)
      = "LRANGE \"".toList ++ key ++ ['"', ' ', '"'] ++ (toString start).toList
        ++ ['"', ' ', '"'] ++ (toString end_).toList ++ ['"'] ∧
    (∀ c ∈ (toString start).toList, c.isDigit = true ∨ c = '-') ∧
    (∀ c ∈ (toString end_).toList, c.isDigit = true ∨ c = '-') := by
  refine ⟨?_, int_toString_chars start, int_toString_chars end_⟩
  simp [get_command]

/-- Witness for C3 (amended) at `Lrange{key:"k", 7, -2}`. -/
theorem c3_lrange_integers_witness :
    get_command (.Lrange ("k".toList) 7 (-2))
      = "LRANGE \"".toList ++ "k".toList ++ ['"', ' ', '"'] ++ (toString (7 : Int)).toList
        ++ ['"', ' ', '"'] ++ (toString (-2 : Int)).toList ++ ['"'] ∧
    (('7' : Char).isDigit = true ∨ ('7' : Char) = '-') ∧
    (('-' : Char).isDigit = true ∨ ('-' : Char) = '-') :=
  ⟨(c3_lrange_integers ("k".toList) 7 (-2)).1,
    (c3_lrange_integers ("k".toList) 7 (-2)).2.1 '7' (by decide),
    (c3_lrange_integers ("k".toList) 7 (-2)).2.2 '-' (by decide)⟩

/-- C3 (counterexample to the claim as stated): in the encoded line for
`Lrange{key:"k", 0, -1}` the decimal text of `start` (the `'0'` at
position 12) is surrounded by double quotes (positions 11 and 13), and the
text of `end` (`"-1"`, positions 16-17) by quotes at positions 15 and 18 —
the integers are not interpolated without surrounding quotes. -/
theorem c3_lrange_integers_counterexample :
    get_command (.Lrange ("k".toList) 0 (-1))
      = "LRANGE \"k\" \"0\" \"-1\"".toList ∧
    ("LRANGE \"k\" \"0\" \"-1\"".toList).getD 11 ' ' = '"' ∧
    ("LRANGE \"k\" \"0\" \"-1\"".toList).getD 12 ' ' = '0' ∧
    ("LRANGE \"k\" \"0\" \"-1\"".toList).getD 13 ' ' = '"' ∧
    ("LRANGE \"k\" \"0\" \"-1\"".toList).getD 15 ' ' = '"' ∧
    ("LRANGE \"k\" \"0\" \"-1\"".toList).getD 18 ' ' = '"' := by
  refine ⟨?_, by decide, by decide, by decide, by decide, by decide⟩
  decide

/-- C8: the claim (and the spec) say a negative declared array length
yields `Array{length, []}` with no recursive reads, matching the intent of
the `for _ in 0..length` loop; but the source first runs
`Vec::with_capacity(length as usize)`, and for a negative `length` the
`as usize` cast wraps to at least `2^63`, so `with_capacity` panics with a
capacity overflow and the process aborts before the loop.  Decoding
`"*-1\r\n"` therefore aborts (`none`), while `"*0\r\n"` indeed returns
`Array{0, []}`. -/
theorem c8_negative_length_aborts :
    usize_cast (-1) = 2 ^ 64 - 1 ∧
    parse_response ("*-1\r\n".toList) = (none, []) ∧
    parse_response ("*0\r\n".toList) = (some (.Array 0 []), []) := by
  refine ⟨by decide, ?_, ?_⟩
  · rw [parse_response_star (show read_line ("*-1\r\n".toList)
      = ('*' :: "-1\r\n".toList, []) by decide)]
    rfl
  · have hmap : parse_response ("*0\r\n".toList)
        = (((parse_many 0 ([] : List Char)).1).map (.Array 0 ·),
          (parse_many 0 ([] : List Char)).2) := by
      rw [parse_response_star (show read_line ("*0\r\n".toList)
        = ('*' :: "0\r\n".toList, []) by decide)]
      rfl
    rw [hmap, parse_many_zero]
    rfl

/-- C9 (amended): for `SimpleString`, `Error` and `BulkString` values the
decoded payload is the remainder of the line with every carriage-return
and line-feed character removed — not only the trailing terminator: a
carriage return in the interior of the line is dropped as well. -/
theorem c9_payload_filtering (s payload rest line2 rest2 : List Char) (L : Int) :
    (read_line s = ('+' :: payload, rest) →
      parse_response s
        = (some (.SimpleString (payload.filter (fun x => !(x = '\r' || x = '\n')))), rest)) ∧
    (read_line s = ('-' :: payload, rest) →
      parse_response s
        = (some (.Error (payload.filter (fun x => !(x = '\r' || x = '\n')))), rest)) ∧
    (read_line s = ('$' :: payload, rest) → get_length payload = some L →
      read_line rest = (line2, rest2) →
      parse_response s
        = (some (.BulkString L (line2.filter (fun x => !(x = '\r' || x = '\n')))), rest2)) := by
  refine ⟨?_, ?_, ?_⟩
  · intro h
    rw [parse_response_plus h]
    rfl
  · intro h
    rw [parse_response_minus h]
    rfl
  · intro h hlen h2
    rw [parse_response_dollar h, hlen, h2]
    rfl

/-- Witness for C9 (amended) on lines with an interior carriage return:
`"+a\rb\r\n"`, `"-e\rr\r\n"` and `"$4\r\nw\rx\r\n"`. -/
theorem c9_payload_filtering_witness :
    parse_response ("+a\rb\r\n".toList) = (some (.SimpleString ("ab".toList)), []) ∧
    parse_response ("-e\rr\r\n".toList) = (some (.Error ("er".toList)), []) ∧
    parse_response ("$4\r\nw\rx\r\n".toList) = (some (.BulkString 4 ("wx".toList)), []) := by
  refine ⟨?_, ?_, ?_⟩
  · rw [(c9_payload_filtering ("+a\rb\r\n".toList) ("a\rb\r\n".toList) [] [] [] 0).1
      (by decide)]
    rfl
  · rw [(c9_payload_filtering ("-e\rr\r\n".toList) ("e\rr\r\n".toList) [] [] [] 0).2.1
      (by decide)]
    rfl
  · rw [(c9_payload_filtering ("$4\r\nw\rx\r\n".toList) ("4\r\n".toList)
      ("w\rx\r\n".toList) ("w\rx\r\n".toList) [] 4).2.2
      (by decide) (by decide) (by decide)]
    rfl

/-- C9 (counterexample to the claim as stated): the line `"+a\rb\r\n"`
decodes to `SimpleString{"ab"}`: the interior carriage return is removed,
whereas the claim says only the trailing terminator is stripped and every
interior character (including an interior `'\r'`) is preserved, which
would give `SimpleString{"a\rb"}`. -/
theorem c9_payload_filtering_counterexample :
    parse_response ("+a\rb\r\n".toList) = (some (.SimpleString ("ab".toList)), []) ∧
    parse_response ("+a\rb\r\n".toList) ≠ (some (.SimpleString ("a\rb".toList)), []) := by
  have h := parse_response_plus (show read_line ("+a\rb\r\n".toList)
    = ('+' :: "a\rb\r\n".toList, []) by decide)
  constructor
  · rw [h]
    rfl
  · rw [h]
    intro hcontra
    simp [get_result, filter_eol] at hcontra

/-- C10: the decoder is a total function of the remaining stream (it is
defined by well-founded recursion on the stream length, with the
element loop recursing once per declared element): an exhausted stream
returns the sentinel immediately, every invocation on a non-empty stream
consumes at least the one line it reads, and the unread remainder never
grows — so decoding terminates on every finite stream. -/
theorem c10_total_consumption (s : List Char) :
    (parse_response s).2.length ≤ s.length ∧
    (s ≠ [] → (parse_response s).2.length < s.length) ∧
    parse_response [] = (some (.Unknown none none), []) ∧
    ∀ n : Nat, (parse_many n s).2.length ≤ s.length :=
  ⟨parse_response_rest_le s, fun hs => parse_response_rest_lt hs,
    parse_response_nil, fun n => parse_many_rest_le n s⟩

/-- Witness for C10 on the non-empty stream `"+OK\r\n"`. -/
theorem c10_total_consumption_witness :
    (parse_response ("+OK\r\n".toList)).2.length < ("+OK\r\n".toList).length :=
  (c10_total_consumption ("+OK\r\n".toList)).2.1 (by decide)

end RedisClient

